import Mathlib

/-!
# Verification of the critical-window extraction pipeline

Shallow embedding of `src/data_collection.py` (clock-string parsing,
critical-window filtering, fetch/retry protocol, per-game orchestration)
together with proofs of the specification claims.

Modelling conventions:
* A pandas `DataFrame` of play-by-play events is a `Frame`: a list of `Row`s
  plus one boolean per modelled column recording whether that column is
  present in the table.  A cell that is `NaN`/absent is `Option.none`.
* Python values that may or may not be strings are `Option String`
  (`none` covers `None`, floats, and every other non-`str` input).
* `period` cells are integers (the feed guarantees an integral period) and
  score cells are integers; `.astype(int)` is then the identity.
* Python `float` values arising from clock strings are decimal literals;
  they are modelled exactly as `Dec` pairs `num / 10 ^ e10` (the decimal
  literals appearing in clock strings are tiny, so the IEEE rounding
  performed by CPython agrees with the exact value).
  `float("inf")`/`float("nan")` are modelled as parse failures because the
  subsequent `int(...)` call raises, which lands in the same `except`
  branch as a parse failure.
* Python `int(...)`/`float(...)` digit parsing is modelled for ASCII digit
  strings (the underscore-separator and non-ASCII-digit niceties of CPython
  are never produced by the feed and are out of scope).
-/

/-! ## Rows and frames -/

/-- One play-by-play action record.  Optional fields are `none` when the
cell is `NaN`/absent.  The trailing fields are the columns added by the
pipeline (`time_remaining`, `score_diff`, `GAME_ID`, `GAME_DATE`,
`MATCHUP`); on raw feed rows they are `none`. -/
structure Row where
  period : Int
  clock : Option String
  homeScore : Option Int
  awayScore : Option Int
  time_remaining : Option Int
  score_diff : Option Int
  game_id : Option String
  game_date : Option String
  matchup : Option String
deriving DecidableEq

/-- A pandas data frame: the list of rows plus presence flags for the
columns the pipeline inspects (`period`, `clock`, `homeScore`,
`awayScore`) and for the columns it creates. -/
structure Frame where
  hasPeriod : Bool
  hasClock : Bool
  hasHome : Bool
  hasAway : Bool
  hasTimeRem : Bool
  hasScoreDiff : Bool
  hasGameId : Bool
  hasGameDate : Bool
  hasMatchup : Bool
  rows : List Row
deriving DecidableEq

/-- `pd.DataFrame()`: no columns, no rows. -/
def Frame.empty : Frame :=
  ⟨false, false, false, false, false, false, false, false, false, []⟩

/-- Build a raw feed action (only the feed columns are populated). -/
def mkAction (p : Int) (c : Option String) (h a : Option Int) : Row :=
  ⟨p, c, h, a, none, none, none, none, none⟩

/-- Build a raw feed frame carrying the four feed columns as flagged. -/
def mkFrame (hp hc hh ha : Bool) (rs : List Row) : Frame :=
  ⟨hp, hc, hh, ha, false, false, false, false, false, rs⟩

/-! ## Python string primitives used by `clock_to_seconds` -/

/-- The whitespace characters stripped by `str.strip()` (ASCII part). -/
def isPySpace (c : Char) : Bool :=
  c == ' ' || c == '\t' || c == '\n' || c == '\r' || c == '\x0b' || c == '\x0c'

/-- `str.strip()` on a character list. -/
def pyStrip (cs : List Char) : List Char :=
  ((cs.dropWhile isPySpace).reverse.dropWhile isPySpace).reverse

/-- Numeric value of a string of decimal digits (leading zeros allowed),
as computed by Python `int` on a digit string. -/
def digitsVal (cs : List Char) : Nat :=
  cs.foldl (fun a c => a * 10 + (c.toNat - 48)) 0

/-- Python `int(str)`: optional surrounding whitespace, optional sign,
then a nonempty run of decimal digits.  `none` models `ValueError`. -/
def signedDigits (l : List Char) : Option Int :=
  match l with
  | [] => none
  | c :: t =>
    if c = '+' then
      if !t.isEmpty && t.all Char.isDigit then some ((digitsVal t : Int)) else none
    else if c = '-' then
      if !t.isEmpty && t.all Char.isDigit then some (-(digitsVal t : Int)) else none
    else
      if (c :: t).all Char.isDigit then some ((digitsVal (c :: t) : Int)) else none

def pyInt (cs0 : List Char) : Option Int :=
  signedDigits (pyStrip cs0)

/-- An exact decimal value `num / 10 ^ e10`, the model of the Python
floats produced by `float(...)` on clock strings. -/
structure Dec where
  num : Int
  e10 : Nat
deriving DecidableEq

/-- Truncation toward zero, as Python `int(float)`. -/
def decTrunc (x : Dec) : Int :=
  x.num.tdiv (10 ^ x.e10)

/-- Floor of the decimal value. -/
def decFloor (x : Dec) : Int :=
  x.num.fdiv (10 ^ x.e10)

/-- Python 3 `round` on the exact decimal value: round half to even. -/
def decRoundHalfEven (x : Dec) : Int :=
  if 2 * (x.num - decFloor x * 10 ^ x.e10) < 10 ^ x.e10 then decFloor x
  else if (10 : Int) ^ x.e10 < 2 * (x.num - decFloor x * 10 ^ x.e10) then decFloor x + 1
  else if decFloor x % 2 = 0 then decFloor x else decFloor x + 1

/-- Add an integer to a decimal value. -/
def decAddInt (m : Int) (x : Dec) : Dec :=
  ⟨m * 10 ^ x.e10 + x.num, x.e10⟩

/-- Exponent suffix of a Python float literal: empty, or `e`/`E`, an
optional sign and a nonempty digit run. -/
def parseExp (cs : List Char) : Option Int :=
  match cs with
  | [] => some 0
  | c :: t =>
    if c = 'e' ∨ c = 'E' then signedDigits t else none

/-- Scale an unsigned decimal by a decimal exponent. -/
def applyExp (n : Nat) (k : Nat) (e : Int) : Nat × Nat :=
  if 0 ≤ e then (n * 10 ^ e.toNat, k) else (n, k + (-e).toNat)

/-- Unsigned part of a Python float literal: `d+`, `d+.d*`, `.d+`, each
with an optional exponent.  Returns the scaled numerator and the decimal
exponent of the denominator. -/
def parseMagnitude (body : List Char) : Option (Nat × Nat) :=
  match body.drop (body.takeWhile Char.isDigit).length with
  | [] =>
    if (body.takeWhile Char.isDigit).isEmpty then none
    else
      match parseExp [] with
      | some e => some (applyExp (digitsVal (body.takeWhile Char.isDigit)) 0 e)
      | none => none
  | c :: rest2 =>
    if c = '.' then
      if (body.takeWhile Char.isDigit).isEmpty && (rest2.takeWhile Char.isDigit).isEmpty
      then none
      else
        match parseExp (rest2.drop (rest2.takeWhile Char.isDigit).length) with
        | some e =>
          some (applyExp
            (digitsVal (body.takeWhile Char.isDigit) * 10 ^ (rest2.takeWhile Char.isDigit).length
              + digitsVal (rest2.takeWhile Char.isDigit))
            (rest2.takeWhile Char.isDigit).length e)
        | none => none
    else
      if (body.takeWhile Char.isDigit).isEmpty then none
      else
        match parseExp (c :: rest2) with
        | some e => some (applyExp (digitsVal (body.takeWhile Char.isDigit)) 0 e)
        | none => none

/-- Python `float(str)` restricted to finite results: whitespace is
stripped, an optional sign is read, then a decimal literal.  `none`
models both `ValueError` and the infinite/NaN spellings (on which the
enclosing `int(...)` raises, giving the same observable behaviour). -/
def pyFloat (cs0 : List Char) : Option Dec :=
  match pyStrip cs0 with
  | [] => none
  | c :: t =>
    if c = '+' then
      match parseMagnitude t with
      | some (n, k) => some ⟨(n : Int), k⟩
      | none => none
    else if c = '-' then
      match parseMagnitude t with
      | some (n, k) => some ⟨-(n : Int), k⟩
      | none => none
    else
      match parseMagnitude (c :: t) with
      | some (n, k) => some ⟨(n : Int), k⟩
      | none => none

/-! ## The two regex searches of the `PT…` branch

`re.search(r"(\d+)M", s)` matches at the leftmost position carrying a
maximal digit run immediately followed by `M`; `re.search(r"(\d+(\.\d+)?)S", s)`
matches at the leftmost position carrying a maximal digit run followed
either directly by `S`, or by `.`, a nonempty maximal digit run and `S`
(backtracking inside a digit run can never succeed, because shortening a
run leaves a digit where `M`/`.`/`S` is required). -/

/-- Attempt `(\d+)M` at the head of `cs`; returns the digit group. -/
def matchRunM (cs : List Char) : Option (List Char) :=
  if (cs.takeWhile Char.isDigit).isEmpty then none
  else
    match cs.drop (cs.takeWhile Char.isDigit).length with
    | [] => none
    | d :: _ => if d = 'M' then some (cs.takeWhile Char.isDigit) else none

/-- `re.search(r"(\d+)M", cs)`: group 1 of the leftmost match. -/
def searchDigitsM : List Char → Option (List Char)
  | [] => none
  | c :: rest =>
    match matchRunM (c :: rest) with
    | some r => some r
    | none => searchDigitsM rest

/-- Continuation of `(\d+(\.\d+)?)S` after the integral digit run:
either `.`, nonempty digits, `S`, or directly `S`. -/
def secAfterRun (run1 after : List Char) : Option (List Char × List Char) :=
  match after with
  | [] => none
  | a :: rest2 =>
    if a = '.' then
      match rest2.drop (rest2.takeWhile Char.isDigit).length with
      | [] => none
      | d :: _ =>
        if d = 'S' then
          if (rest2.takeWhile Char.isDigit).isEmpty then none
          else some (run1, rest2.takeWhile Char.isDigit)
        else none
    else if a = 'S' then some (run1, [])
    else none

/-- Attempt `(\d+(\.\d+)?)S` at the head of `cs`; returns the integral
and fractional digit parts of group 1. -/
def matchSecS (cs : List Char) : Option (List Char × List Char) :=
  if (cs.takeWhile Char.isDigit).isEmpty then none
  else secAfterRun (cs.takeWhile Char.isDigit) (cs.drop (cs.takeWhile Char.isDigit).length)

/-- `re.search(r"(\d+(\.\d+)?)S", cs)`: group 1 of the leftmost match,
split at the decimal point (second component `[]` when no fraction). -/
def searchSecS : List Char → Option (List Char × List Char)
  | [] => none
  | c :: rest =>
    match matchSecS (c :: rest) with
    | some r => some r
    | none => searchSecS rest

/-- `int(minutes_match.group(1)) if minutes_match else 0`. -/
def ptMinutes (cs : List Char) : Nat :=
  match searchDigitsM cs with
  | some r => digitsVal r
  | none => 0

/-- `float(seconds_match.group(1)) if seconds_match else 0.0`. -/
def ptSeconds (cs : List Char) : Dec :=
  match searchSecS cs with
  | some (r1, r2) => ⟨(digitsVal r1 * 10 ^ r2.length + digitsVal r2 : Nat), r2.length⟩
  | none => ⟨0, 0⟩

/-- `str.split(":")` on a character list (keeps empty parts). -/
def splitOnColon : List Char → List (List Char)
  | [] => [[]]
  | c :: rest =>
    if c = ':' then [] :: splitOnColon rest
    else
      match splitOnColon rest with
      | h :: t => (c :: h) :: t
      | [] => [[c]]

/-! ## `clock_to_seconds` -/

/-- Body of the `try:` block of `clock_to_seconds`, on the stripped
string.  `Except.error ()` models an exception reaching the
`except Exception:` handler. -/
def ctsBody (cs : List Char) : Except Unit Int :=
  if cs.take 2 = ['P', 'T'] then
    Except.ok (decRoundHalfEven (decAddInt ((ptMinutes cs : Int) * 60) (ptSeconds cs)))
  else if cs.any (fun c => c == ':') then
    match splitOnColon cs with
    | [mcs, scs] =>
      (match pyInt mcs, pyFloat scs with
       | some m, some q => Except.ok (m * 60 + decTrunc q)
       | _, _ => Except.error ())
    | _ => Except.error ()
  else
    match pyFloat cs with
    | some q => Except.ok (decTrunc q)
    | none => Except.error ()

/-- `clock_to_seconds(clock_str)`: non-strings and blank strings yield 0;
otherwise the stripped string is parsed, every exception degrading to 0. -/
def clock_to_seconds (clock_str : Option String) : Int :=
  match clock_str with
  | none => 0
  | some s =>
    if (pyStrip s.data).isEmpty then 0
    else
      match ctsBody (pyStrip s.data) with
      | Except.ok n => n
      | Except.error _ => 0

/-! ## `extract_last_3_minutes` -/

/-- `df["time_remaining"] = df["clock"].apply(clock_to_seconds)`, effect
on one row. -/
def rowSetTime (r : Row) : Row :=
  { r with time_remaining := some (clock_to_seconds r.clock) }

/-- Effect on one row of
`df[home] = df[home].fillna(0).astype(int)` (and likewise for `away`)
followed by `df["score_diff"] = df[home] - df[away]`. -/
def rowFillScores (r : Row) : Row :=
  { r with
    homeScore := some (r.homeScore.getD 0)
    awayScore := some (r.awayScore.getD 0)
    score_diff := some (r.homeScore.getD 0 - r.awayScore.getD 0) }

/-- Effect on one row of `df["score_diff"] = 0`. -/
def rowZeroScore (r : Row) : Row :=
  { r with score_diff := some 0 }

/-- `df["time_remaining"] = df["clock"].apply(clock_to_seconds)`. -/
def addTimeRemaining (f : Frame) : Frame :=
  { f with hasTimeRem := true, rows := f.rows.map rowSetTime }

/-- The score-differential block: fill and difference the score columns
when both are present, otherwise a constant zero `score_diff` column. -/
def addScoreDiff (f : Frame) : Frame :=
  if f.hasHome && f.hasAway then
    { f with hasScoreDiff := true, rows := f.rows.map rowFillScores }
  else
    { f with hasScoreDiff := true, rows := f.rows.map rowZeroScore }

/-- `(df["period"] == 4) & (df["time_remaining"] <= 180) | (df["period"] > 4)`. -/
def criticalMask (r : Row) : Bool :=
  (r.period == 4 && decide (r.time_remaining.getD 0 ≤ (180 : Int)))
    || decide ((4 : Int) < r.period)

/-- `extract_last_3_minutes(pbp_df)`. -/
def extract_last_3_minutes (pbp_df : Frame) : Frame :=
  if pbp_df.rows.isEmpty then pbp_df
  else if pbp_df.hasPeriod = false ∨ pbp_df.hasClock = false then Frame.empty
  else
    { addScoreDiff (addTimeRemaining pbp_df) with
      rows := (addScoreDiff (addTimeRemaining pbp_df)).rows.filter criticalMask }

/-- The window predicate of the specification, expressed on a raw input
record: `(period == 4 AND time_remaining_seconds <= 180) OR period > 4`,
with `time_remaining_seconds` derived from the record's own clock. -/
def rawCritical (r : Row) : Bool :=
  (r.period == 4 && decide (clock_to_seconds r.clock ≤ (180 : Int)))
    || decide ((4 : Int) < r.period)

/-- The combined effect of the filter's derived columns on one selected
row (`b` is whether both score columns are present). -/
def enrichRow (b : Bool) (r : Row) : Row :=
  if b then rowFillScores (rowSetTime r) else rowZeroScore (rowSetTime r)

/-! ## `fetch_pbp_live` -/

/-- One outcome of `requests.get` plus decoding: either some exception
(transport failure, non-2xx status via `raise_for_status`, or a JSON
decode error), or a decoded action table. -/
inductive FetchOutcome where
  | fail
  | ok (actions : Frame)
deriving DecidableEq

/-- Whether an attempt outcome is an exception. -/
def FetchOutcome.isFail : FetchOutcome → Bool
  | .fail => true
  | .ok _ => false

/-- Result of `fetch_pbp_live` together with its observable effects:
the returned frame, the number of request attempts made and the number
of fixed 1-second back-off sleeps performed. -/
structure FetchResult where
  frame : Frame
  attempts : Nat
  sleeps : Nat
deriving DecidableEq

/-- `df["GAME_ID"] = game_id`. -/
def setGameId (gid : String) (f : Frame) : Frame :=
  { f with hasGameId := true, rows := f.rows.map fun r => { r with game_id := some gid } }

/-- The body of the `try:` block of one attempt: an exception anywhere
in the request/decode propagates (`Except.error`), an empty action list
returns `pd.DataFrame()`, and otherwise the action table is returned
with its `GAME_ID` column set. -/
def attemptTry (gid : String) (o : FetchOutcome) : Except Unit Frame :=
  match o with
  | .fail => Except.error ()
  | .ok f => Except.ok (if f.rows.isEmpty then Frame.empty else setGameId gid f)

/-- The retry loop of `fetch_pbp_live`: `rem` attempts remain, `idx` is
the 1-based index of the next attempt, `att`/`slp` count the attempts
and back-off sleeps already performed.  The `except` branch records one
failed attempt, sleeps once, and retries. -/
def fetchLoop (feed : Nat → FetchOutcome) (gid : String) :
    Nat → Nat → Nat → Nat → FetchResult
  | 0, _, att, slp => ⟨Frame.empty, att, slp⟩
  | rem + 1, idx, att, slp =>
    match attemptTry gid (feed idx) with
    | Except.ok f => ⟨f, att + 1, slp⟩
    | Except.error _ => fetchLoop feed gid rem (idx + 1) (att + 1) (slp + 1)

/-- `fetch_pbp_live(game_id, max_retries)` with the network modelled as
the oracle `feed` mapping the attempt index to its outcome. -/
def fetch_pbp_live (feed : Nat → FetchOutcome) (gid : String) (max_retries : Nat) :
    FetchResult :=
  fetchLoop feed gid max_retries 1 0 0

/-- The retry loop with the exception flow made explicit in the type: a
result of `Except.error` would mean an exception escaped the loop to the
caller.  The `except Exception` handler consumes every error, so this
always returns `Except.ok` (proved below). -/
def fetchLoopE (feed : Nat → FetchOutcome) (gid : String) :
    Nat → Nat → Nat → Nat → Except Unit FetchResult
  | 0, _, att, slp => Except.ok ⟨Frame.empty, att, slp⟩
  | rem + 1, idx, att, slp =>
    match attemptTry gid (feed idx) with
    | Except.ok f => Except.ok ⟨f, att + 1, slp⟩
    | Except.error _ => fetchLoopE feed gid rem (idx + 1) (att + 1) (slp + 1)

/-- `fetch_pbp_live` in the exception-explicit presentation. -/
def fetch_pbp_liveE (feed : Nat → FetchOutcome) (gid : String) (max_retries : Nat) :
    Except Unit FetchResult :=
  fetchLoopE feed gid max_retries 1 0 0

/-! ## `extract_critical_moments` -/

/-- One row of the game list produced by `get_all_games` (the fields the
orchestrator reads: `GAME_ID`, `GAME_DATE`, `MATCHUP`). -/
structure GameRow where
  game_id : String
  game_date : String
  matchup : String
deriving DecidableEq

/-- `critical["GAME_DATE"] = ...; critical["MATCHUP"] = ...`. -/
def attachMeta (g : GameRow) (f : Frame) : Frame :=
  { f with
    hasGameDate := true
    hasMatchup := true
    rows := f.rows.map fun r =>
      { r with game_date := some g.game_date, matchup := some g.matchup } }

/-- `pd.concat(frames, ignore_index=True)`: columns are unioned, rows
are concatenated in order. -/
def concatFrames (fs : List Frame) : Frame :=
  { hasPeriod := fs.any fun f => f.hasPeriod
    hasClock := fs.any fun f => f.hasClock
    hasHome := fs.any fun f => f.hasHome
    hasAway := fs.any fun f => f.hasAway
    hasTimeRem := fs.any fun f => f.hasTimeRem
    hasScoreDiff := fs.any fun f => f.hasScoreDiff
    hasGameId := fs.any fun f => f.hasGameId
    hasGameDate := fs.any fun f => f.hasGameDate
    hasMatchup := fs.any fun f => f.hasMatchup
    rows := (fs.map Frame.rows).flatten }

/-- The loop body of `extract_critical_moments` for one game: fetch
(with the default three attempts), skip when empty, filter, skip when
empty, attach the game metadata.  `none` means the game contributed
nothing to `all_critical`. -/
def processGame (feed : String → Nat → FetchOutcome) (g : GameRow) : Option Frame :=
  if (fetch_pbp_live (feed g.game_id) g.game_id 3).frame.rows.isEmpty then none
  else
    if (extract_last_3_minutes (fetch_pbp_live (feed g.game_id) g.game_id 3).frame).rows.isEmpty
    then none
    else some (attachMeta g (extract_last_3_minutes (fetch_pbp_live (feed g.game_id) g.game_id 3).frame))

/-- `extract_critical_moments(games_df, limit)` with the network oracle
`feed` indexed by game id and attempt number. -/
def extract_critical_moments (feed : String → Nat → FetchOutcome)
    (games : List GameRow) (limit : Option Nat) : Frame :=
  if games.isEmpty then Frame.empty
  else
    match (match limit with
           | some l => games.take l
           | none => games).filterMap (processGame feed) with
    | [] => Frame.empty
    | fs => concatFrames fs

/-! ## The filter as a store program

`extract_last_3_minutes` mutates only a private copy of its argument.
To state that, the pandas fragment it uses is given a small-step store
semantics: a store is a list of allocated frames, `pbp_df.copy()` and
`pd.DataFrame()`/`.copy()` allocate fresh frames, and each column
assignment updates one allocated frame in place. -/

/-- The heap of allocated data frames. -/
abbrev Store : Type := List Frame

/-- Read the frame at address `i`. -/
def getF (σ : Store) (i : Nat) : Frame :=
  List.getD σ i Frame.empty

/-- Allocate a fresh frame, returning the new store and its address. -/
def allocF (σ : Store) (f : Frame) : Store × Nat :=
  (List.append σ [f], List.length σ)

/-- Overwrite the frame at address `i`. -/
def setF (σ : Store) (i : Nat) (f : Frame) : Store :=
  List.set σ i f

/-- `extract_last_3_minutes` as a store program: the argument is the
address of the caller's frame; the result is the updated store and the
address of the returned frame.  Mutating steps (`df[...] = ...`) hit
only the fresh copy `j`. -/
def extract_last_3_minutes_st (σ : Store) (i : Nat) : Store × Nat :=
  if (getF σ i).rows.isEmpty then (σ, i)
  else
    match allocF σ (getF σ i) with
    | (σ1, j) =>
      if (getF σ1 j).hasPeriod = false ∨ (getF σ1 j).hasClock = false then
        allocF σ1 Frame.empty
      else
        match setF σ1 j (addTimeRemaining (getF σ1 j)) with
        | σ2 =>
          match setF σ2 j (addScoreDiff (getF σ2 j)) with
          | σ3 =>
            allocF σ3
              { getF σ3 j with rows := (getF σ3 j).rows.filter criticalMask }

/-! ## Well-formed clock shapes (for the parser specification) -/

/-- The textual fractional part of a seconds field: `"." ++ digits`, or
nothing. -/
def fracPart : Option (List Char) → List Char
  | none => []
  | some l => '.' :: l

/-- The digits of the fractional part (empty when absent). -/
def fracDigits : Option (List Char) → List Char
  | none => []
  | some l => l

/-- The exact decimal value denoted by `sd[.fd]` (integral digits `sd`,
optional fractional digits `fd`). -/
def secDec (sd : List Char) (fd : Option (List Char)) : Dec :=
  ⟨(digitsVal sd * 10 ^ (fracDigits fd).length + digitsVal (fracDigits fd) : Nat),
   (fracDigits fd).length⟩

/-! ## Representation invariant and concrete instances -/

/-- Representation invariant tying cell contents to column presence: a
pandas frame without a score column has no values in that column. -/
def Frame.ScoresWF (f : Frame) : Prop :=
  (f.hasHome = false → ∀ r ∈ f.rows, r.homeScore = none) ∧
  (f.hasAway = false → ∀ r ∈ f.rows, r.awayScore = none)

instance (f : Frame) : Decidable f.ScoresWF := by
  unfold Frame.ScoresWF; infer_instance

/-- The end-to-end scenario of the specification (§8). -/
def demoFrame : Frame :=
  mkFrame true true true true
    [ mkAction 4 (some ("03:00")) (some 80) (some 75)
    , mkAction 4 (some ("02:59")) (some 80) (some 77)
    , mkAction 5 (some ("04:30")) (some 90) (some 90) ]

/-- A frame carrying a `homeScore` column but no `awayScore` column. -/
def mixedScoreFrame : Frame :=
  mkFrame true true true false
    [ mkAction 4 (some ("00:10")) (some 70) none ]

/-- A frame with both score columns: one row with scores 70/68, one row
with both score cells missing. -/
def scoresFrame : Frame :=
  mkFrame true true true true
    [ mkAction 4 (some ("01:00")) (some 70) (some 68)
    , mkAction 5 (some ("07:21")) none none ]

/-- A nonempty frame lacking the `period` column. -/
def noPeriodFrame : Frame :=
  mkFrame false true true true
    [ mkAction 4 (some ("00:30")) (some 10) (some 12) ]

/-- A feed on which every request attempt raises. -/
def failFeed : Nat → FetchOutcome := fun _ => FetchOutcome.fail

/-- A feed that returns the demo action table for every game and
attempt. -/
def demoFeed : String → Nat → FetchOutcome := fun _ _ => FetchOutcome.ok demoFrame

/-- A game-list row for the demo game. -/
def demoGame : GameRow :=
  ⟨"0022300001", "2024-01-15", "BOS vs. LAL"⟩

/-! # Theorems -/

/-! ## Generic helpers -/

theorem list_map_id_of {α : Type} {f : α → α} :
    ∀ {l : List α}, (∀ a ∈ l, f a = a) → l.map f = l
  | [], _ => rfl
  | a :: t, h => by
    rw [List.map_cons, h a (List.mem_cons_self a t),
      list_map_id_of fun b hb => h b (List.mem_cons_of_mem a hb)]

/-! ## The derived columns of the filter -/

theorem criticalMask_enrichRow (b : Bool) (r : Row) :
    criticalMask (enrichRow b r) = rawCritical r := by
  cases b <;> cases r <;> rfl

theorem addScoreDiff_addTimeRemaining_rows (f : Frame) :
    (addScoreDiff (addTimeRemaining f)).rows
      = f.rows.map (enrichRow (f.hasHome && f.hasAway)) := by
  by_cases h : (f.hasHome && f.hasAway) = true <;>
    simp [addScoreDiff, addTimeRemaining, enrichRow, h, List.map_map, Function.comp]

theorem extract_rows_eq (f : Frame) (hp : f.hasPeriod = true) (hc : f.hasClock = true) :
    (extract_last_3_minutes f).rows
      = (f.rows.filter rawCritical).map (enrichRow (f.hasHome && f.hasAway)) := by
  by_cases h0 : f.rows.isEmpty
  · have hnil : f.rows = [] := List.isEmpty_iff.mp h0
    simp [extract_last_3_minutes, h0, hnil]
  · have hcond : ¬(f.hasPeriod = false ∨ f.hasClock = false) := by simp [hp, hc]
    simp only [extract_last_3_minutes, h0, Bool.false_eq_true, if_false, if_neg hcond]
    rw [addScoreDiff_addTimeRemaining_rows, List.filter_map]
    exact congrArg _ (List.filter_congr fun r _ => by
      simpa [Function.comp] using criticalMask_enrichRow (f.hasHome && f.hasAway) r)

/-! ## Claim C1: the critical-window filter -/

/-- Claim C1: for every input event table having both a `period` and a
`clock` column, `extract_last_3_minutes` returns exactly the subsequence
of input records satisfying
`(period == 4 AND time_remaining_seconds ≤ 180) OR period > 4` (each
record enriched with the derived columns), in the input's original
order; a period-4 record whose clock parses to exactly 180 seconds is
included, one at 181 is excluded, and every record with period ≥ 5 is
included regardless of its time remaining. -/
theorem extract_last_3_minutes_window (f : Frame)
    (hp : f.hasPeriod = true) (hc : f.hasClock = true) :
    (extract_last_3_minutes f).rows
        = (f.rows.filter rawCritical).map (enrichRow (f.hasHome && f.hasAway))
      ∧ (∀ r ∈ f.rows, r.period = 4 → clock_to_seconds r.clock = 180 →
          enrichRow (f.hasHome && f.hasAway) r ∈ (extract_last_3_minutes f).rows)
      ∧ (∀ r ∈ f.rows, r.period = 4 → clock_to_seconds r.clock = 181 →
          enrichRow (f.hasHome && f.hasAway) r ∉ (extract_last_3_minutes f).rows)
      ∧ (∀ r ∈ f.rows, 5 ≤ r.period →
          enrichRow (f.hasHome && f.hasAway) r ∈ (extract_last_3_minutes f).rows) := by
  have main := extract_rows_eq f hp hc
  refine ⟨main, ?_, ?_, ?_⟩
  · intro r hr h4 h180
    have hraw : rawCritical r = true := by
      simp [rawCritical, h4, h180]
    rw [main]
    exact List.mem_map_of_mem _ (List.mem_filter.mpr ⟨hr, hraw⟩)
  · intro r _ h4 h181 hmem
    rw [main] at hmem
    obtain ⟨r', hr', heq⟩ := List.mem_map.mp hmem
    have hraw : rawCritical r' = true := (List.mem_filter.mp hr').2
    have h1 : criticalMask (enrichRow (f.hasHome && f.hasAway) r') = true := by
      rw [criticalMask_enrichRow]; exact hraw
    rw [heq, criticalMask_enrichRow] at h1
    simp [rawCritical, h4, h181] at h1
  · intro r hr h5
    have hraw : rawCritical r = true := by
      have : (4 : Int) < r.period := by omega
      simp [rawCritical, this]
    rw [main]
    exact List.mem_map_of_mem _ (List.mem_filter.mpr ⟨hr, hraw⟩)

/-- Witness for C1 at the specification's end-to-end scenario. -/
theorem extract_last_3_minutes_window_witness :
    (extract_last_3_minutes demoFrame).rows
      = (demoFrame.rows.filter rawCritical).map
          (enrichRow (demoFrame.hasHome && demoFrame.hasAway)) :=
  (extract_last_3_minutes_window demoFrame rfl rfl).1

/-! ## Claim C7: missing schema columns -/

/-- Claim C7: if the input table lacks the `period` column or lacks the
`clock` column, the filter returns an empty result instead of failing. -/
theorem extract_missing_columns (f : Frame)
    (h : f.hasPeriod = false ∨ f.hasClock = false) :
    (extract_last_3_minutes f).rows = [] := by
  by_cases h0 : f.rows.isEmpty
  · have hnil : f.rows = [] := List.isEmpty_iff.mp h0
    simp [extract_last_3_minutes, h0, hnil]
  · simp [extract_last_3_minutes, h0, h, Frame.empty]

/-- Witness for C7: a nonempty table without a `period` column. -/
theorem extract_missing_columns_witness :
    (extract_last_3_minutes noPeriodFrame).rows = [] :=
  extract_missing_columns noPeriodFrame (Or.inl rfl)

/-! ## Claim C5: the clock parser is total -/

/-- Claim C5: the clock parser never propagates an error: empty input,
`None`, and unparseable strings such as `"garbage"` yield 0, and every
string whose parse body raises degrades to 0 through the `except`
handler. -/
theorem clock_to_seconds_total :
    clock_to_seconds none = 0 ∧
    clock_to_seconds (some ("")) = 0 ∧
    clock_to_seconds (some ("garbage")) = 0 ∧
    ∀ (s : String) (e : Unit), ctsBody (pyStrip s.data) = Except.error e →
      clock_to_seconds (some s) = 0 := by
  refine ⟨rfl, rfl, by decide, ?_⟩
  intro s e h
  unfold clock_to_seconds
  by_cases h0 : (pyStrip s.data).isEmpty
  · simp [h0]
  · simp [h0, h]

/-- Witness for C5 at a string on which the parse body raises. -/
theorem clock_to_seconds_total_witness :
    ctsBody (pyStrip ("12;34").data) = Except.error () ∧
    clock_to_seconds (some ("12;34")) = 0 :=
  ⟨rfl, clock_to_seconds_total.2.2.2 ("12;34") () rfl⟩

/-! ## Claim C3: the score differential -/

/-- Claim C3 fails as stated: in a table carrying a `homeScore` column
but no `awayScore` column, the code sets `score_diff = 0` for every
record, while `(home or 0) - (away or 0)` is 70 for the given record. -/
theorem score_diff_formula_cex :
    ∃ r ∈ (extract_last_3_minutes mixedScoreFrame).rows,
      r.score_diff ≠ some (r.homeScore.getD 0 - r.awayScore.getD 0) := by
  decide

/-- Claim C3, amended: when the two score columns are both present or
both absent, every record processed by the filter gets
`score_diff = (home or 0) - (away or 0)`. -/
theorem score_diff_formula (f : Frame) (hwf : f.ScoresWF)
    (hba : f.hasHome = f.hasAway) :
    ∀ r ∈ (extract_last_3_minutes f).rows,
      r.score_diff = some (r.homeScore.getD 0 - r.awayScore.getD 0) := by
  intro r hr
  by_cases h0 : f.rows.isEmpty
  · have hnil : f.rows = [] := List.isEmpty_iff.mp h0
    simp [extract_last_3_minutes, h0, hnil] at hr
  · by_cases hcols : f.hasPeriod = false ∨ f.hasClock = false
    · simp [extract_last_3_minutes, h0, hcols, Frame.empty] at hr
    · have hp : f.hasPeriod = true := by
        cases hhp : f.hasPeriod
        · exact absurd (Or.inl hhp) hcols
        · rfl
      have hc : f.hasClock = true := by
        cases hhc : f.hasClock
        · exact absurd (Or.inr hhc) hcols
        · rfl
      rw [extract_rows_eq f hp hc] at hr
      obtain ⟨r0, hr0, heq⟩ := List.mem_map.mp hr
      have hr0mem : r0 ∈ f.rows := (List.mem_filter.mp hr0).1
      subst heq
      cases hb : f.hasHome
      · have hb' : f.hasAway = false := hba ▸ hb
        have hhome : r0.homeScore = none := hwf.1 hb r0 hr0mem
        have haway : r0.awayScore = none := hwf.2 hb' r0 hr0mem
        cases r0
        simp_all [enrichRow, rowZeroScore, rowSetTime, hb]
      · have hb' : f.hasAway = true := hba ▸ hb
        cases r0
        simp [enrichRow, hb, hb', rowFillScores, rowSetTime]

/-- Witness for the amended C3, exercising both the 70/68 record and a
record whose score cells are both missing. -/
theorem score_diff_formula_witness :
    scoresFrame.ScoresWF ∧ scoresFrame.hasHome = scoresFrame.hasAway ∧
    (∀ r ∈ (extract_last_3_minutes scoresFrame).rows,
        r.score_diff = some (r.homeScore.getD 0 - r.awayScore.getD 0)) ∧
    (extract_last_3_minutes scoresFrame).rows.map Row.score_diff = [some 2, some 0] :=
  ⟨by decide, rfl, score_diff_formula scoresFrame (by decide) rfl, by decide⟩

/-! ## Claim C9: idempotence of the filter -/

theorem enrichRow_idem (b : Bool) (r : Row) :
    enrichRow b (enrichRow b r) = enrichRow b r := by
  cases b <;> cases r <;> rfl

theorem enrichRow_true : enrichRow true = fun r => rowFillScores (rowSetTime r) := rfl

theorem enrichRow_false : enrichRow false = fun r => rowZeroScore (rowSetTime r) := rfl

theorem extract_main_frame (f : Frame) (h0 : ¬ f.rows.isEmpty = true)
    (hp : f.hasPeriod = true) (hc : f.hasClock = true) :
    extract_last_3_minutes f =
      ⟨f.hasPeriod, f.hasClock, f.hasHome, f.hasAway, true, true,
       f.hasGameId, f.hasGameDate, f.hasMatchup,
       (f.rows.map (enrichRow (f.hasHome && f.hasAway))).filter criticalMask⟩ := by
  cases f with
  | mk fhp fhc fhh fha ftr fsd fgi fgd fmu frows =>
    subst hp
    subst hc
    cases fhh <;> cases fha <;>
      simp_all [extract_last_3_minutes, addScoreDiff, addTimeRemaining,
        enrichRow_true, enrichRow_false, List.map_map, Function.comp_def]

/-- Claim C9: the critical-window filter is idempotent — applying
`extract_last_3_minutes` to its own output returns that output exactly
(same records, same derived values, same order). -/
theorem extract_last_3_minutes_idempotent (f : Frame) :
    extract_last_3_minutes (extract_last_3_minutes f) = extract_last_3_minutes f := by
  by_cases h0 : f.rows.isEmpty
  · have hf : extract_last_3_minutes f = f := by
      simp [extract_last_3_minutes, h0]
    rw [hf]
    exact hf
  · by_cases hcols : f.hasPeriod = false ∨ f.hasClock = false
    · have hf : extract_last_3_minutes f = Frame.empty := by
        simp [extract_last_3_minutes, h0, hcols]
      rw [hf]
      rfl
    · have hp : f.hasPeriod = true := by
        cases hhp : f.hasPeriod
        · exact absurd (Or.inl hhp) hcols
        · rfl
      have hc : f.hasClock = true := by
        cases hhc : f.hasClock
        · exact absurd (Or.inr hhc) hcols
        · rfl
      have hX := extract_main_frame f h0 hp hc
      have hstab : ∀ x ∈ (f.rows.map (enrichRow (f.hasHome && f.hasAway))).filter criticalMask,
          enrichRow (f.hasHome && f.hasAway) x = x ∧ criticalMask x = true := by
        intro x hx
        have hmask : criticalMask x = true := (List.mem_filter.mp hx).2
        obtain ⟨r, _, hr⟩ := List.mem_map.mp (List.mem_filter.mp hx).1
        exact ⟨hr ▸ enrichRow_idem _ r, hmask⟩
      rw [hX]
      by_cases hRe : ((f.rows.map (enrichRow (f.hasHome && f.hasAway))).filter criticalMask).isEmpty
      · simp [extract_last_3_minutes, hRe]
      · have h2 := extract_main_frame
          ⟨f.hasPeriod, f.hasClock, f.hasHome, f.hasAway, true, true,
           f.hasGameId, f.hasGameDate, f.hasMatchup,
           (f.rows.map (enrichRow (f.hasHome && f.hasAway))).filter criticalMask⟩
          hRe hp hc
        rw [h2]
        congr 1
        rw [list_map_id_of (fun x hx => (hstab x hx).1)]
        exact List.filter_eq_self.mpr (fun x hx => (hstab x hx).2)

/-! ## Claim C10: the filter does not mutate its input -/

theorem getF_append (σ : Store) (f : Frame) (m : Nat) (hm : m < List.length σ) :
    getF (List.append σ [f]) m = getF σ m := by
  unfold getF
  exact List.getD_append σ [f] Frame.empty m hm

theorem getF_set_ne (σ : Store) (j : Nat) (f : Frame) (m : Nat) (h : j ≠ m) :
    getF (setF σ j f) m = getF σ m := by
  unfold getF setF
  rw [List.getD_eq_getElem?_getD, List.getD_eq_getElem?_getD, List.getElem?_set_ne h]

/-- Claim C10: `extract_last_3_minutes` never mutates any frame already
allocated before the call — in particular the caller's input table still
holds exactly the rows, column set and values it held before; the
derived columns are only ever written to the private copy. -/
theorem extract_st_preserves (σ : Store) (i m : Nat) (hm : m < List.length σ) :
    getF (extract_last_3_minutes_st σ i).1 m = getF σ m := by
  have hms : List.length σ ≠ m := by omega
  unfold extract_last_3_minutes_st
  by_cases h0 : (getF σ i).rows.isEmpty
  · simp [h0]
  · simp only [h0, Bool.false_eq_true, if_false, allocF]
    by_cases hcols :
        (getF (List.append σ [getF σ i]) (List.length σ)).hasPeriod = false ∨
        (getF (List.append σ [getF σ i]) (List.length σ)).hasClock = false
    · rw [if_pos hcols]
      show getF (List.append (List.append σ [getF σ i]) [Frame.empty]) m = getF σ m
      rw [getF_append, getF_append σ _ m hm]
      simpa using Nat.lt_succ_of_lt hm
    · rw [if_neg hcols]
      show getF (List.append (setF (setF (List.append σ [getF σ i]) (List.length σ) _)
        (List.length σ) _) [_]) m = getF σ m
      rw [getF_append, getF_set_ne _ _ _ _ hms, getF_set_ne _ _ _ _ hms,
        getF_append σ _ m hm]
      · simp only [setF, List.length_set]
        simpa using Nat.lt_succ_of_lt hm

/-- Witness for C10: a singleton store holding the demo frame. -/
theorem extract_st_preserves_witness :
    getF (extract_last_3_minutes_st [demoFrame] 0).1 0 = getF [demoFrame] 0 :=
  extract_st_preserves [demoFrame] 0 0 (by decide)

theorem getF_append_self (σ : Store) (f : Frame) :
    getF (List.append σ [f]) (List.length σ) = f := by
  unfold getF
  show (σ ++ [f]).getD (List.length σ) Frame.empty = f
  rw [List.getD_append_right σ [f] Frame.empty (List.length σ) (Nat.le_refl _)]
  simp

theorem getF_set_self (σ : Store) (j : Nat) (f : Frame) (h : j < List.length σ) :
    getF (setF σ j f) j = f := by
  unfold getF setF
  rw [List.getD_eq_getElem?_getD, List.getElem?_set_self]
  · rfl
  · exact h

/-- The store program returns (at its result address) exactly the frame
computed by the pure `extract_last_3_minutes`. -/
theorem extract_st_result (σ : Store) (i : Nat) :
    getF (extract_last_3_minutes_st σ i).1 (extract_last_3_minutes_st σ i).2
      = extract_last_3_minutes (getF σ i) := by
  unfold extract_last_3_minutes_st
  by_cases h0 : (getF σ i).rows.isEmpty
  · simp [extract_last_3_minutes, h0]
  · simp only [h0, Bool.false_eq_true, if_false, allocF]
    have hcopy : getF (List.append σ [getF σ i]) (List.length σ) = getF σ i :=
      getF_append_self σ _
    by_cases hcols :
        (getF (List.append σ [getF σ i]) (List.length σ)).hasPeriod = false ∨
        (getF (List.append σ [getF σ i]) (List.length σ)).hasClock = false
    · rw [if_pos hcols]
      show getF (List.append _ [Frame.empty]) (List.length _) = _
      rw [getF_append_self]
      rw [hcopy] at hcols
      simp [extract_last_3_minutes, h0, hcols]
    · rw [if_neg hcols]
      rw [hcopy] at hcols
      have hlen1 : List.length σ < List.length (List.append σ [getF σ i]) := by
        simp
      have hset1 : getF (setF (List.append σ [getF σ i]) (List.length σ)
          (addTimeRemaining (getF (List.append σ [getF σ i]) (List.length σ))))
          (List.length σ) = addTimeRemaining (getF σ i) := by
        rw [getF_set_self _ _ _ hlen1, hcopy]
      have hlen2 : List.length σ < List.length (setF (List.append σ [getF σ i])
          (List.length σ) (addTimeRemaining (getF (List.append σ [getF σ i])
          (List.length σ)))) := by
        simp [setF]
      show getF (List.append _ [_]) (List.length _) = _
      rw [getF_append_self]
      rw [getF_set_self _ _ _ hlen2, hset1]
      have hcond : ¬((getF σ i).hasPeriod = false ∨ (getF σ i).hasClock = false) := hcols
      simp [extract_last_3_minutes, h0, hcond, addTimeRemaining, addScoreDiff]

/-! ## Claim C6: the fetch/retry protocol -/

theorem fetchLoopE_eq_ok (feed : Nat → FetchOutcome) (gid : String) :
    ∀ rem idx att slp,
      fetchLoopE feed gid rem idx att slp
        = Except.ok (fetchLoop feed gid rem idx att slp)
  | 0, _, _, _ => rfl
  | rem + 1, idx, att, slp => by
    cases hA : attemptTry gid (feed idx) <;>
      simp [fetchLoopE, fetchLoop, hA, fetchLoopE_eq_ok feed gid rem]

theorem fetchLoop_spec (feed : Nat → FetchOutcome) (gid : String) :
    ∀ rem idx att slp, ∃ n, n ≤ rem ∧
      (fetchLoop feed gid rem idx att slp).attempts = att + n ∧
      (fetchLoop feed gid rem idx att slp).sleeps
        = slp + ((List.range' idx n).filter (fun j => (feed j).isFail)).length
  | 0, idx, att, slp => ⟨0, by simp [fetchLoop]⟩
  | rem + 1, idx, att, slp => by
    cases hA : feed idx with
    | ok f =>
      refine ⟨1, by omega, ?_, ?_⟩ <;>
        simp [fetchLoop, attemptTry, hA, List.range', FetchOutcome.isFail]
    | fail =>
      obtain ⟨n, hn, ha, hs⟩ := fetchLoop_spec feed gid rem (idx + 1) (att + 1) (slp + 1)
      refine ⟨n + 1, by omega, ?_, ?_⟩
      all_goals
        have hstep : fetchLoop feed gid (rem + 1) idx att slp
            = fetchLoop feed gid rem (idx + 1) (att + 1) (slp + 1) := by
          simp [fetchLoop, attemptTry, hA]
      · rw [hstep]
        omega
      · have hfail : (feed idx).isFail = true := by rw [hA]; rfl
        rw [hstep, hs, List.range'_succ]
        have hfc : List.filter (fun j => (feed j).isFail) (idx :: List.range' (idx + 1) n)
            = idx :: List.filter (fun j => (feed j).isFail) (List.range' (idx + 1) n) :=
          List.filter_cons_of_pos hfail
        rw [hfc, List.length_cons]
        omega

theorem fetchLoop_exhaust (feed : Nat → FetchOutcome) (gid : String) :
    ∀ rem idx att slp,
      (∀ j, idx ≤ j → j < idx + rem → feed j = FetchOutcome.fail) →
      fetchLoop feed gid rem idx att slp = ⟨Frame.empty, att + rem, slp + rem⟩
  | 0, idx, att, slp, _ => by simp [fetchLoop]
  | rem + 1, idx, att, slp, h => by
    have hidx : feed idx = FetchOutcome.fail := h idx (Nat.le_refl idx) (by omega)
    simp only [fetchLoop, attemptTry, hidx]
    rw [fetchLoop_exhaust feed gid rem (idx + 1) (att + 1) (slp + 1)
      (fun j h1 h2 => h j (by omega) (by omega))]
    congr 1 <;> omega

/-- Claim C6: for every feed behaviour, game id and `max_attempts ≥ 1`,
the fetcher performs at most `max_attempts` request attempts, sleeps the
fixed 1-second back-off exactly once per failed attempt, never lets an
exception escape to its caller (the exception-explicit presentation
always returns `Except.ok`), and when every attempt fails it returns the
empty frame after exactly `max_attempts` attempts. -/
theorem fetch_pbp_live_retry (feed : Nat → FetchOutcome) (gid : String)
    (m : Nat) (hm : 1 ≤ m) :
    fetch_pbp_liveE feed gid m = Except.ok (fetch_pbp_live feed gid m) ∧
    (fetch_pbp_live feed gid m).attempts ≤ m ∧
    (fetch_pbp_live feed gid m).sleeps
      = ((List.range' 1 (fetch_pbp_live feed gid m).attempts).filter
          (fun j => (feed j).isFail)).length ∧
    ((∀ j, 1 ≤ j → j ≤ m → feed j = FetchOutcome.fail) →
      fetch_pbp_live feed gid m = ⟨Frame.empty, m, m⟩) := by
  obtain ⟨n, hn, ha, hs⟩ := fetchLoop_spec feed gid m 1 0 0
  refine ⟨fetchLoopE_eq_ok feed gid m 1 0 0, ?_, ?_, ?_⟩
  · unfold fetch_pbp_live
    omega
  · unfold fetch_pbp_live
    rw [ha, hs]
    simp
  · intro hall
    unfold fetch_pbp_live
    rw [fetchLoop_exhaust feed gid m 1 0 0 (fun j h1 h2 => hall j h1 (by omega))]
    simp

/-- Witness for C6: a feed that always fails, three attempts. -/
theorem fetch_pbp_live_retry_witness :
    fetch_pbp_live failFeed ("0022000001") 3 = ⟨Frame.empty, 3, 3⟩ :=
  (fetch_pbp_live_retry failFeed ("0022000001") 3 (by decide)).2.2.2
    (fun j h1 h2 => rfl)

/-! ## Claim C8: the orchestrator -/

theorem concat_match_rows (l : List Frame) :
    (match l with
     | [] => Frame.empty
     | fs => concatFrames fs).rows = (l.map Frame.rows).flatten := by
  cases l with
  | nil => rfl
  | cons a t => rfl

theorem filterMap_rows_flatten (p : GameRow → Option Frame) :
    ∀ gs : List GameRow,
      ((gs.filterMap p).map Frame.rows).flatten
        = (gs.map fun g =>
            match p g with
            | some fr => fr.rows
            | none => []).flatten
  | [] => rfl
  | g :: t => by
    cases hp : p g <;>
      simp [List.filterMap_cons, hp, filterMap_rows_flatten p t]

/-- Claim C8: the orchestrator processes exactly the first `limit` games
in list order (all of them when `limit` is `None`); a game whose fetch
or filter result is empty contributes no records and raises no error;
the aggregate is the concatenation of the per-game critical-event
sequences in input order (so a duplicated game reference duplicates its
output); and every emitted record carries its game's `GAME_DATE` and
`MATCHUP`. -/
theorem extract_critical_moments_spec (feed : String → Nat → FetchOutcome)
    (games : List GameRow) (limit : Option Nat) :
    (extract_critical_moments feed games limit).rows
      = ((match limit with
          | some l => games.take l
          | none => games).map fun g =>
            match processGame feed g with
            | some fr => fr.rows
            | none => []).flatten ∧
    (∀ g fr, processGame feed g = some fr →
      ∀ r ∈ fr.rows, r.game_date = some g.game_date ∧ r.matchup = some g.matchup) := by
  constructor
  · by_cases hg : games.isEmpty
    · have hnil : games = [] := List.isEmpty_iff.mp hg
      subst hnil
      cases limit <;> simp [extract_critical_moments, Frame.empty]
    · unfold extract_critical_moments
      rw [if_neg hg, concat_match_rows, filterMap_rows_flatten]
  · intro g fr hfr r hr
    unfold processGame at hfr
    by_cases h1 : (fetch_pbp_live (feed g.game_id) g.game_id 3).frame.rows.isEmpty
    · rw [if_pos h1] at hfr
      cases hfr
    · rw [if_neg h1] at hfr
      by_cases h2 : (extract_last_3_minutes
          (fetch_pbp_live (feed g.game_id) g.game_id 3).frame).rows.isEmpty
      · rw [if_pos h2] at hfr
        cases hfr
      · rw [if_neg h2] at hfr
        have hfr' : attachMeta g (extract_last_3_minutes
            (fetch_pbp_live (feed g.game_id) g.game_id 3).frame) = fr :=
          Option.some.inj hfr
        rw [← hfr'] at hr
        unfold attachMeta at hr
        simp only [List.mem_map] at hr
        obtain ⟨r0, _, hr0⟩ := hr
        rw [← hr0]
        exact ⟨rfl, rfl⟩

/-- Witness for C8 on a one-game list against the demo feed. -/
theorem extract_critical_moments_spec_witness :
    (extract_critical_moments demoFeed [demoGame] none).rows
      = (([demoGame]).map fun g =>
          match processGame demoFeed g with
          | some fr => fr.rows
          | none => []).flatten :=
  (extract_critical_moments_spec demoFeed [demoGame] none).1

/-! ## Claim C2: sign of the parsed clock -/

/-- Claim C2 fails as stated: the fallback branch parses a bare numeric
string through `int(float(...))`, so the minus-signed string `"-5"`
yields −5 — a negative `time_remaining_seconds`. -/
theorem clock_to_seconds_nonneg_cex :
    clock_to_seconds (some ("-5")) = -5 ∧ ¬ 0 ≤ clock_to_seconds (some ("-5")) := by
  decide

theorem mem_of_mem_pyStrip {c : Char} {l : List Char} (h : c ∈ pyStrip l) : c ∈ l := by
  unfold pyStrip at h
  rw [List.mem_reverse] at h
  have h1 := (List.dropWhile_sublist isPySpace).mem h
  rw [List.mem_reverse] at h1
  exact (List.dropWhile_sublist isPySpace).mem h1

theorem splitOnColon_ne_nil : ∀ cs : List Char, splitOnColon cs ≠ []
  | [] => by simp [splitOnColon]
  | c :: rest => by
    by_cases hc : c = ':'
    · simp [splitOnColon, hc]
    · simp only [splitOnColon, if_neg hc]
      cases hs : splitOnColon rest <;> simp

theorem mem_of_mem_splitOnColon :
    ∀ (cs part : List Char) (c : Char),
      part ∈ splitOnColon cs → c ∈ part → c ∈ cs
  | [], part, c, hp, hc => by
    simp only [splitOnColon, List.mem_singleton] at hp
    subst hp
    simp at hc
  | a :: rest, part, c, hp, hc => by
    by_cases ha : a = ':'
    · simp only [splitOnColon, if_pos ha, List.mem_cons] at hp
      rcases hp with h1 | h2
      · subst h1
        simp at hc
      · exact List.mem_cons_of_mem a (mem_of_mem_splitOnColon rest part c h2 hc)
    · simp only [splitOnColon, if_neg ha] at hp
      cases hs : splitOnColon rest with
      | nil => exact absurd hs (splitOnColon_ne_nil rest)
      | cons h t =>
        rw [hs] at hp
        rcases List.mem_cons.mp hp with h1 | h2
        · subst h1
          rcases List.mem_cons.mp hc with h3 | h4
          · subst h3
            exact List.mem_cons_self c rest
          · refine List.mem_cons_of_mem a (mem_of_mem_splitOnColon rest h c ?_ h4)
            rw [hs]
            exact List.mem_cons_self h t
        · refine List.mem_cons_of_mem a (mem_of_mem_splitOnColon rest part c ?_ hc)
          rw [hs]
          exact List.mem_cons_of_mem h h2

theorem signedDigits_nonneg (l : List Char) (hm : ('-' : Char) ∉ l)
    (v : Int) (hv : signedDigits l = some v) : 0 ≤ v := by
  cases l with
  | nil => simp [signedDigits] at hv
  | cons c t =>
    have hc : c ≠ '-' := fun h => hm (h ▸ List.mem_cons_self c t)
    simp only [signedDigits] at hv
    by_cases h1 : c = '+'
    · rw [if_pos h1] at hv
      by_cases h2 : (!t.isEmpty && t.all Char.isDigit) = true
      · rw [if_pos h2] at hv
        rw [← Option.some.inj hv]
        exact Int.natCast_nonneg _
      · rw [if_neg h2] at hv
        cases hv
    · rw [if_neg h1, if_neg hc] at hv
      by_cases h2 : ((c :: t).all Char.isDigit) = true
      · rw [if_pos h2] at hv
        rw [← Option.some.inj hv]
        exact Int.natCast_nonneg _
      · rw [if_neg h2] at hv
        cases hv

theorem pyInt_nonneg (cs : List Char) (hm : ('-' : Char) ∉ cs)
    (v : Int) (hv : pyInt cs = some v) : 0 ≤ v :=
  signedDigits_nonneg (pyStrip cs) (fun h => hm (mem_of_mem_pyStrip h)) v hv

theorem pyFloat_num_nonneg (cs : List Char) (hm : ('-' : Char) ∉ cs)
    (q : Dec) (hq : pyFloat cs = some q) : 0 ≤ q.num := by
  unfold pyFloat at hq
  cases hs : pyStrip cs with
  | nil =>
    rw [hs] at hq
    cases hq
  | cons c t =>
    have hc : c ≠ '-' := fun h => hm (mem_of_mem_pyStrip (hs ▸ h ▸ List.mem_cons_self c t))
    rw [hs] at hq
    simp only [if_neg hc] at hq
    by_cases h1 : c = '+'
    · rw [if_pos h1] at hq
      cases hmag : parseMagnitude t with
      | none => rw [hmag] at hq; cases hq
      | some nk =>
        rw [hmag] at hq
        rw [← Option.some.inj hq]
        exact Int.natCast_nonneg _
    · rw [if_neg h1] at hq
      cases hmag : parseMagnitude (c :: t) with
      | none => rw [hmag] at hq; cases hq
      | some nk =>
        rw [hmag] at hq
        rw [← Option.some.inj hq]
        exact Int.natCast_nonneg _

theorem decTrunc_nonneg (x : Dec) (h : 0 ≤ x.num) : 0 ≤ decTrunc x :=
  Int.tdiv_nonneg h (pow_nonneg (by omega) _)

theorem decFloor_nonneg (x : Dec) (h : 0 ≤ x.num) : 0 ≤ decFloor x :=
  Int.fdiv_nonneg h (pow_nonneg (by omega) _)

theorem decRoundHalfEven_nonneg (x : Dec) (h : 0 ≤ x.num) :
    0 ≤ decRoundHalfEven x := by
  have hf := decFloor_nonneg x h
  unfold decRoundHalfEven
  split
  · exact hf
  · split
    · omega
    · split <;> omega

theorem ptSeconds_num_nonneg (cs : List Char) : 0 ≤ (ptSeconds cs).num := by
  unfold ptSeconds
  cases hs : searchSecS cs with
  | none => simp
  | some r =>
    match r with
    | (r1, r2) => exact Int.natCast_nonneg _

theorem ctsBody_nonneg (cs : List Char) (hm : ('-' : Char) ∉ cs)
    (n : Int) (hn : ctsBody cs = Except.ok n) : 0 ≤ n := by
  unfold ctsBody at hn
  by_cases hpt : cs.take 2 = ['P', 'T']
  · rw [if_pos hpt] at hn
    rw [← Except.ok.inj hn]
    apply decRoundHalfEven_nonneg
    show 0 ≤ (decAddInt ((ptMinutes cs : Int) * 60) (ptSeconds cs)).num
    unfold decAddInt
    have h1 : 0 ≤ (ptMinutes cs : Int) := Int.natCast_nonneg _
    have h2 : 0 ≤ (ptSeconds cs).num := ptSeconds_num_nonneg cs
    have h3 : (0 : Int) ≤ 10 ^ (ptSeconds cs).e10 := pow_nonneg (by omega) _
    have h4 : 0 ≤ (ptMinutes cs : Int) * 60 * 10 ^ (ptSeconds cs).e10 := by positivity
    exact add_nonneg h4 h2
  · rw [if_neg hpt] at hn
    by_cases hcol : cs.any (fun c => c == ':') = true
    · rw [if_pos hcol] at hn
      cases hsp : splitOnColon cs with
      | nil => rw [hsp] at hn; cases hn
      | cons a l2 =>
        cases l2 with
        | nil => rw [hsp] at hn; cases hn
        | cons b l3 =>
          cases l3 with
          | cons d l4 => rw [hsp] at hn; cases hn
          | nil =>
            rw [hsp] at hn
            have hn2 : (match pyInt a, pyFloat b with
                | some m, some q => Except.ok (m * 60 + decTrunc q)
                | _, _ => Except.error ()) = Except.ok n := hn
            clear hn
            cases hpi : pyInt a with
            | none => rw [hpi] at hn2; cases hn2
            | some m =>
              cases hpf : pyFloat b with
              | none => rw [hpi, hpf] at hn2; cases hn2
              | some q =>
                rw [hpi, hpf] at hn2
                have hma : ('-' : Char) ∉ a := fun h =>
                  hm (mem_of_mem_splitOnColon cs a '-'
                    (hsp ▸ List.mem_cons_self a [b]) h)
                have hmb : ('-' : Char) ∉ b := fun h =>
                  hm (mem_of_mem_splitOnColon cs b '-'
                    (hsp ▸ List.mem_cons_of_mem a (List.mem_cons_self b [])) h)
                have h1 := pyInt_nonneg a hma m hpi
                have h2 := decTrunc_nonneg q (pyFloat_num_nonneg b hmb q hpf)
                rw [← Except.ok.inj hn2]
                positivity
    · rw [if_neg hcol] at hn
      cases hpf : pyFloat cs with
      | none => rw [hpf] at hn; cases hn
      | some q =>
        rw [hpf] at hn
        rw [← Except.ok.inj hn]
        exact decTrunc_nonneg q (pyFloat_num_nonneg cs hm q hpf)

/-- Claim C2, amended: the parser returns a non-negative value on `None`,
on every non-string, and on every string not containing a minus sign;
a minus-signed numeric string (such as `"-5"`) is the only way to obtain
a negative `time_remaining_seconds`. -/
theorem clock_to_seconds_nonneg (x : Option String)
    (h : ∀ s, x = some s → ('-' : Char) ∉ s.data) :
    0 ≤ clock_to_seconds x := by
  cases x with
  | none => exact le_refl 0
  | some s =>
    have hm0 : ('-' : Char) ∉ s.data := h s rfl
    have hm : ('-' : Char) ∉ pyStrip s.data := fun hx => hm0 (mem_of_mem_pyStrip hx)
    unfold clock_to_seconds
    by_cases h0 : (pyStrip s.data).isEmpty
    · simp [h0]
    · simp only [h0, Bool.false_eq_true, if_false]
      cases hb : ctsBody (pyStrip s.data) with
      | error e => simp
      | ok n => exact ctsBody_nonneg (pyStrip s.data) hm n hb

/-- Witness for the amended C2 on a minus-free clock string. -/
theorem clock_to_seconds_nonneg_witness :
    0 ≤ clock_to_seconds (some ("07:43")) :=
  clock_to_seconds_nonneg (some ("07:43"))
    (fun s hs => by cases hs; decide)

/-! ## Claim C4: well-formed clock strings -/

theorem digit_ne {c d : Char} (hc : c.isDigit = true) (hd : d.isDigit = false) : c ≠ d :=
  fun h => by rw [h, hd] at hc; cases hc

theorem digit_toNat_le {c : Char} (h : c.isDigit = true) : c.toNat - 48 ≤ 9 := by
  unfold Char.isDigit at h
  rw [Bool.and_eq_true, decide_eq_true_eq, decide_eq_true_eq] at h
  obtain ⟨h1, h2⟩ := h
  have h1' : (48 : UInt32) ≤ c.val := h1
  rw [UInt32.le_def, BitVec.le_def] at h1' h2
  have e2 : (57 : UInt32).toBitVec.toNat = 57 := rfl
  have e3 : c.toNat = c.val.toBitVec.toNat := rfl
  omega

theorem digit_not_space {c : Char} (hc : c.isDigit = true) : isPySpace c = false := by
  unfold isPySpace
  have h1 : c ≠ ' ' := digit_ne hc (by decide)
  have h2 : c ≠ '\t' := digit_ne hc (by decide)
  have h3 : c ≠ '\n' := digit_ne hc (by decide)
  have h4 : c ≠ '\r' := digit_ne hc (by decide)
  have h5 : c ≠ '\x0b' := digit_ne hc (by decide)
  have h6 : c ≠ '\x0c' := digit_ne hc (by decide)
  simp [h1, h2, h3, h4, h5, h6]

theorem dropWhile_eq_self_of {p : Char → Bool} :
    ∀ l : List Char, (∀ c ∈ l, p c = false) → l.dropWhile p = l
  | [], _ => rfl
  | c :: t, h => by
    rw [List.dropWhile_cons, h c (List.mem_cons_self c t)]
    simp

theorem pyStrip_eq_self {l : List Char} (h : ∀ c ∈ l, isPySpace c = false) :
    pyStrip l = l := by
  unfold pyStrip
  rw [dropWhile_eq_self_of l h,
    dropWhile_eq_self_of l.reverse (fun c hc => h c (List.mem_reverse.mp hc)),
    List.reverse_reverse]

theorem takeWhile_append_all {p : Char → Bool} :
    ∀ (l r : List Char), l.all p = true → (l ++ r).takeWhile p = l ++ r.takeWhile p
  | [], _, _ => rfl
  | c :: t, r, h => by
    simp only [List.all_cons, Bool.and_eq_true] at h
    rw [List.cons_append, List.takeWhile_cons]
    simp [h.1, takeWhile_append_all t r h.2]

theorem takeWhile_all_self (l : List Char) (h : l.all Char.isDigit = true) :
    l.takeWhile Char.isDigit = l := by
  have h2 := takeWhile_append_all l [] h
  simpa using h2

theorem takeWhile_digits_stop (l : List Char) (c : Char) (t : List Char)
    (hl : l.all Char.isDigit = true) (hc : c.isDigit = false) :
    (l ++ c :: t).takeWhile Char.isDigit = l := by
  rw [takeWhile_append_all l (c :: t) hl, List.takeWhile_cons]
  simp [hc]

theorem matchRunM_none_head (c : Char) (t : List Char) (h : c.isDigit = false) :
    matchRunM (c :: t) = none := by
  unfold matchRunM
  rw [List.takeWhile_cons]
  simp [h]

theorem searchDigitsM_skip (c : Char) (t : List Char) (h : c.isDigit = false) :
    searchDigitsM (c :: t) = searchDigitsM t := by
  simp [searchDigitsM, matchRunM_none_head c t h]

theorem matchRunM_found (md rest : List Char) (h1 : md ≠ [])
    (h2 : md.all Char.isDigit = true) :
    matchRunM (md ++ 'M' :: rest) = some md := by
  have htw : (md ++ 'M' :: rest).takeWhile Char.isDigit = md :=
    takeWhile_digits_stop md 'M' rest h2 (by decide)
  unfold matchRunM
  rw [htw, List.drop_left]
  simp [List.isEmpty_eq_false.mpr h1]

theorem searchDigitsM_found (md rest : List Char) (h1 : md ≠ [])
    (h2 : md.all Char.isDigit = true) :
    searchDigitsM ('P' :: 'T' :: (md ++ 'M' :: rest)) = some md := by
  rw [searchDigitsM_skip 'P' _ (by decide), searchDigitsM_skip 'T' _ (by decide)]
  cases md with
  | nil => exact absurd rfl h1
  | cons c t =>
    rw [List.cons_append]
    simp only [searchDigitsM]
    rw [← List.cons_append, matchRunM_found (c :: t) rest h1 h2]

theorem searchDigitsM_none : ∀ cs : List Char, 'M' ∉ cs → searchDigitsM cs = none
  | [], _ => rfl
  | c :: t, h => by
    have htail : searchDigitsM t = none :=
      searchDigitsM_none t (fun hx => h (List.mem_cons_of_mem c hx))
    have hM : matchRunM (c :: t) = none := by
      unfold matchRunM
      by_cases hrun : ((c :: t).takeWhile Char.isDigit).isEmpty
      · simp [hrun]
      · cases hd : (c :: t).drop ((c :: t).takeWhile Char.isDigit).length with
        | nil => simp [hrun, hd]
        | cons d ds =>
          have hdmem : d ∈ c :: t :=
            List.drop_subset _ (c :: t) (by rw [hd]; exact List.mem_cons_self d ds)
          have hdM : d ≠ 'M' := fun he => h (he ▸ hdmem)
          simp [hrun, hd, hdM]
    simp [searchDigitsM, hM, htail]

theorem matchSecS_none_head (c : Char) (t : List Char) (h : c.isDigit = false) :
    matchSecS (c :: t) = none := by
  unfold matchSecS
  rw [List.takeWhile_cons]
  simp [h]

theorem searchSecS_skip (c : Char) (t : List Char) (h : c.isDigit = false) :
    searchSecS (c :: t) = searchSecS t := by
  simp [searchSecS, matchSecS_none_head c t h]

theorem searchSecS_skip_digits_M :
    ∀ (md rest : List Char), md.all Char.isDigit = true →
      searchSecS (md ++ 'M' :: rest) = searchSecS rest
  | [], rest, _ => by
    rw [List.nil_append]
    exact searchSecS_skip 'M' rest (by decide)
  | c :: t, rest, h => by
    simp only [List.all_cons, Bool.and_eq_true] at h
    have hall : (c :: t).all Char.isDigit = true := by
      simp [List.all_cons, h.1, h.2]
    have hms : matchSecS ((c :: t) ++ 'M' :: rest) = none := by
      unfold matchSecS
      have htw : ((c :: t) ++ 'M' :: rest).takeWhile Char.isDigit = c :: t :=
        takeWhile_digits_stop (c :: t) 'M' rest hall (by decide)
      rw [htw, List.drop_left]
      simp [secAfterRun]
    rw [List.cons_append]
    simp only [searchSecS]
    rw [← List.cons_append, hms]
    exact searchSecS_skip_digits_M t rest h.2

theorem secAfterRun_S (run1 : List Char) (fd : Option (List Char))
    (hfd : ∀ l, fd = some l → l ≠ [] ∧ l.all Char.isDigit = true) :
    secAfterRun run1 (fracPart fd ++ ['S']) = some (run1, fracDigits fd) := by
  cases fd with
  | none =>
    show secAfterRun run1 ['S'] = some (run1, [])
    simp [secAfterRun]
  | some l =>
    obtain ⟨hl1, hl2⟩ := hfd l rfl
    show secAfterRun run1 ('.' :: (l ++ ['S'])) = some (run1, l)
    have htw : (l ++ ['S']).takeWhile Char.isDigit = l :=
      takeWhile_digits_stop l 'S' [] hl2 (by decide)
    simp [secAfterRun, htw, List.drop_left, List.isEmpty_eq_false.mpr hl1]

theorem matchSecS_found (sd : List Char) (fd : Option (List Char))
    (hsd1 : sd ≠ []) (hsd2 : sd.all Char.isDigit = true)
    (hfd : ∀ l, fd = some l → l ≠ [] ∧ l.all Char.isDigit = true) :
    matchSecS (sd ++ (fracPart fd ++ ['S'])) = some (sd, fracDigits fd) := by
  have htw : (sd ++ (fracPart fd ++ ['S'])).takeWhile Char.isDigit = sd := by
    cases fd with
    | none => exact takeWhile_digits_stop sd 'S' [] hsd2 (by decide)
    | some l => exact takeWhile_digits_stop sd '.' (l ++ ['S']) hsd2 (by decide)
  unfold matchSecS
  rw [htw, List.drop_left, List.isEmpty_eq_false.mpr hsd1]
  simpa using secAfterRun_S sd fd hfd

theorem searchSecS_found (sd : List Char) (fd : Option (List Char))
    (hsd1 : sd ≠ []) (hsd2 : sd.all Char.isDigit = true)
    (hfd : ∀ l, fd = some l → l ≠ [] ∧ l.all Char.isDigit = true) :
    searchSecS (sd ++ (fracPart fd ++ ['S'])) = some (sd, fracDigits fd) := by
  cases sd with
  | nil => exact absurd rfl hsd1
  | cons c t =>
    rw [List.cons_append]
    simp only [searchSecS]
    rw [← List.cons_append, matchSecS_found (c :: t) fd hsd1 hsd2 hfd]

theorem matchSecS_none (c : Char) (t : List Char) (h : 'S' ∉ c :: t) :
    matchSecS (c :: t) = none := by
  unfold matchSecS
  by_cases hrun : ((c :: t).takeWhile Char.isDigit).isEmpty
  · simp [hrun]
  · cases hd : (c :: t).drop ((c :: t).takeWhile Char.isDigit).length with
    | nil => simp [hrun, hd, secAfterRun]
    | cons a rest2 =>
      have hamem : a ∈ c :: t :=
        List.drop_subset _ (c :: t) (by rw [hd]; exact List.mem_cons_self a rest2)
      have haS : a ≠ 'S' := fun he => h (he ▸ hamem)
      have hbody : secAfterRun ((c :: t).takeWhile Char.isDigit) (a :: rest2) = none := by
        by_cases hadot : a = '.'
        · subst hadot
          cases hd2 : rest2.drop ((rest2.takeWhile Char.isDigit)).length with
          | nil => simp [secAfterRun, hd2]
          | cons d ds =>
            have hdmem : d ∈ rest2 :=
              List.drop_subset _ rest2 (by rw [hd2]; exact List.mem_cons_self d ds)
            have hdmem2 : d ∈ c :: t := by
              have hin : d ∈ '.' :: rest2 := List.mem_cons_of_mem _ hdmem
              exact List.drop_subset _ (c :: t) (by rw [hd]; exact hin)
            have hdS : d ≠ 'S' := fun he => h (he ▸ hdmem2)
            simp [secAfterRun, hd2, hdS]
        · simp [secAfterRun, hadot, haS]
      simp [hrun, hd, hbody]

theorem searchSecS_none : ∀ cs : List Char, 'S' ∉ cs → searchSecS cs = none
  | [], _ => rfl
  | c :: t, h => by
    have htail : searchSecS t = none :=
      searchSecS_none t (fun hx => h (List.mem_cons_of_mem c hx))
    simp [searchSecS, matchSecS_none c t h, htail]

theorem foldl_digits_lt :
    ∀ (l : List Char) (a : Nat), l.all Char.isDigit = true →
      List.foldl (fun a c => a * 10 + (c.toNat - 48)) a l < (a + 1) * 10 ^ l.length
  | [], a, _ => by simp
  | c :: t, a, h => by
    simp only [List.all_cons, Bool.and_eq_true] at h
    have hd : c.toNat - 48 ≤ 9 := digit_toNat_le h.1
    have ih := foldl_digits_lt t (a * 10 + (c.toNat - 48)) h.2
    have hstep : a * 10 + (c.toNat - 48) + 1 ≤ (a + 1) * 10 := by omega
    calc List.foldl (fun a c => a * 10 + (c.toNat - 48)) a (c :: t)
        = List.foldl (fun a c => a * 10 + (c.toNat - 48)) (a * 10 + (c.toNat - 48)) t := rfl
      _ < (a * 10 + (c.toNat - 48) + 1) * 10 ^ t.length := ih
      _ ≤ ((a + 1) * 10) * 10 ^ t.length := Nat.mul_le_mul_right _ hstep
      _ = (a + 1) * 10 ^ (c :: t).length := by
          rw [List.length_cons, pow_succ]
          ring

theorem digitsVal_lt (l : List Char) (h : l.all Char.isDigit = true) :
    digitsVal l < 10 ^ l.length := by
  have h2 := foldl_digits_lt l 0 h
  simpa [digitsVal] using h2

theorem no_space_digits (l : List Char) (h : l.all Char.isDigit = true) :
    ∀ c ∈ l, isPySpace c = false :=
  fun c hc => digit_not_space (List.all_eq_true.mp h c hc)

theorem no_space_fracPart (fd : Option (List Char))
    (hfd : ∀ l, fd = some l → l ≠ [] ∧ l.all Char.isDigit = true) :
    ∀ c ∈ fracPart fd, isPySpace c = false := by
  cases fd with
  | none => simp [fracPart]
  | some l =>
    intro c hc
    rcases List.mem_cons.mp hc with h1 | h2
    · subst h1
      decide
    · exact no_space_digits l (hfd l rfl).2 c h2

theorem pyInt_digits (l : List Char) (h1 : l ≠ []) (h2 : l.all Char.isDigit = true) :
    pyInt l = some ((digitsVal l : Int)) := by
  unfold pyInt
  rw [pyStrip_eq_self (no_space_digits l h2)]
  cases l with
  | nil => exact absurd rfl h1
  | cons c t =>
    have hc : c.isDigit = true := by
      simp only [List.all_cons, Bool.and_eq_true] at h2
      exact h2.1
    have hplus : c ≠ '+' := digit_ne hc (by decide)
    have hminus : c ≠ '-' := digit_ne hc (by decide)
    simp only [signedDigits, if_neg hplus, if_neg hminus, if_pos h2]

theorem parseMagnitude_digits (sd : List Char) (fd : Option (List Char))
    (hsd1 : sd ≠ []) (hsd2 : sd.all Char.isDigit = true)
    (hfd : ∀ l, fd = some l → l ≠ [] ∧ l.all Char.isDigit = true) :
    parseMagnitude (sd ++ fracPart fd)
      = some (digitsVal sd * 10 ^ (fracDigits fd).length + digitsVal (fracDigits fd),
              (fracDigits fd).length) := by
  cases fd with
  | none =>
    show parseMagnitude (sd ++ []) = _
    rw [List.append_nil]
    unfold parseMagnitude
    rw [takeWhile_all_self sd hsd2, List.drop_length]
    simp [List.isEmpty_eq_false.mpr hsd1, parseExp, applyExp, fracDigits, digitsVal]
  | some l =>
    obtain ⟨hl1, hl2⟩ := hfd l rfl
    show parseMagnitude (sd ++ '.' :: l) = _
    unfold parseMagnitude
    have htw : (sd ++ '.' :: l).takeWhile Char.isDigit = sd :=
      takeWhile_digits_stop sd '.' l hsd2 (by decide)
    rw [htw, List.drop_left]
    simp [takeWhile_all_self l hl2, List.drop_length, List.isEmpty_eq_false.mpr hsd1,
      parseExp, applyExp, fracDigits]

theorem pyFloat_digits (sd : List Char) (fd : Option (List Char))
    (hsd1 : sd ≠ []) (hsd2 : sd.all Char.isDigit = true)
    (hfd : ∀ l, fd = some l → l ≠ [] ∧ l.all Char.isDigit = true) :
    pyFloat (sd ++ fracPart fd) = some (secDec sd fd) := by
  have hns : ∀ c ∈ sd ++ fracPart fd, isPySpace c = false := by
    rw [List.forall_mem_append]
    exact ⟨no_space_digits sd hsd2, no_space_fracPart fd hfd⟩
  cases sd with
  | nil => exact absurd rfl hsd1
  | cons c t =>
    have hc : c.isDigit = true := by
      simp only [List.all_cons, Bool.and_eq_true] at hsd2
      exact hsd2.1
    have hplus : c ≠ '+' := digit_ne hc (by decide)
    have hminus : c ≠ '-' := digit_ne hc (by decide)
    have hstrip : pyStrip ((c :: t) ++ fracPart fd) = c :: (t ++ fracPart fd) := by
      rw [pyStrip_eq_self hns, List.cons_append]
    unfold pyFloat
    rw [hstrip]
    simp only [if_neg hplus, if_neg hminus]
    rw [← List.cons_append, parseMagnitude_digits (c :: t) fd hsd1 hsd2 hfd]
    rfl

theorem decTrunc_secDec (sd : List Char) (fd : Option (List Char))
    (hfd : ∀ l, fd = some l → l ≠ [] ∧ l.all Char.isDigit = true) :
    decTrunc (secDec sd fd) = (digitsVal sd : Int) := by
  have hflt : digitsVal (fracDigits fd) < 10 ^ (fracDigits fd).length := by
    cases fd with
    | none => simp [fracDigits, digitsVal]
    | some l => exact digitsVal_lt l (hfd l rfl).2
  unfold decTrunc secDec
  rw [show ((10 : Int) ^ (fracDigits fd).length)
      = ((10 ^ (fracDigits fd).length : Nat) : Int) by push_cast; ring]
  rw [← Int.ofNat_tdiv]
  have hnat : (digitsVal sd * 10 ^ (fracDigits fd).length + digitsVal (fracDigits fd))
      / 10 ^ (fracDigits fd).length = digitsVal sd := by
    rw [Nat.mul_comm (digitsVal sd) (10 ^ (fracDigits fd).length)]
    rw [Nat.mul_add_div (Nat.pos_pow_of_pos _ (by omega))]
    rw [Nat.div_eq_of_lt hflt]
    omega
  rw [hnat]

theorem decRoundHalfEven_addInt_even (m : Int) (hm2 : m % 2 = 0) (x : Dec) :
    decRoundHalfEven (decAddInt m x) = m + decRoundHalfEven x := by
  have hpow : (0 : Int) ≤ 10 ^ x.e10 := pow_nonneg (by omega) _
  have hne : ((10 : Int) ^ x.e10) ≠ 0 := by positivity
  have hfl : decFloor (decAddInt m x) = m + decFloor x := by
    unfold decFloor decAddInt
    rw [Int.fdiv_eq_ediv _ hpow, Int.fdiv_eq_ediv _ hpow]
    show (m * 10 ^ x.e10 + x.num) / 10 ^ x.e10 = m + x.num / 10 ^ x.e10
    rw [add_comm (m * 10 ^ x.e10) x.num, mul_comm m ((10 : Int) ^ x.e10),
      ← mul_comm m ((10 : Int) ^ x.e10)]
    rw [show m * 10 ^ x.e10 = m * 10 ^ x.e10 from rfl]
    rw [add_comm m (x.num / 10 ^ x.e10)]
    exact Int.add_mul_ediv_right x.num m hne
  unfold decRoundHalfEven
  rw [hfl]
  have he : (decAddInt m x).e10 = x.e10 := rfl
  rw [he]
  have hrem : (decAddInt m x).num - (m + decFloor x) * 10 ^ x.e10
      = x.num - decFloor x * 10 ^ x.e10 := by
    show m * 10 ^ x.e10 + x.num - (m + decFloor x) * 10 ^ x.e10
        = x.num - decFloor x * 10 ^ x.e10
    ring
  rw [hrem]
  split_ifs <;> omega

theorem decRoundHalfEven_zeroFrac (m : Int) : decRoundHalfEven ⟨m, 0⟩ = m := by
  unfold decRoundHalfEven decFloor
  norm_num [Int.fdiv_one]

theorem splitOnColon_no_colon : ∀ l : List Char, (':' : Char) ∉ l → splitOnColon l = [l]
  | [], _ => rfl
  | c :: t, h => by
    have hc : c ≠ ':' := fun he => h (he ▸ List.mem_cons_self c t)
    have ht := splitOnColon_no_colon t (fun hx => h (List.mem_cons_of_mem c hx))
    simp only [splitOnColon, if_neg hc, ht]

theorem splitOnColon_append : ∀ (a b : List Char), (':' : Char) ∉ a →
    splitOnColon (a ++ ':' :: b) = a :: splitOnColon b
  | [], b, _ => by simp [splitOnColon]
  | c :: t, b, ha => by
    have hc : c ≠ ':' := fun he => ha (he ▸ List.mem_cons_self c t)
    have ih := splitOnColon_append t b (fun hx => ha (List.mem_cons_of_mem c hx))
    rw [List.cons_append]
    simp only [splitOnColon, if_neg hc, ih]

theorem clock_to_seconds_eval (s : String) (n : Int)
    (hns : ∀ c ∈ s.data, isPySpace c = false)
    (hne : s.data ≠ [])
    (hbody : ctsBody s.data = Except.ok n) :
    clock_to_seconds (some s) = n := by
  show (if (pyStrip s.data).isEmpty then (0 : Int)
      else
        match ctsBody (pyStrip s.data) with
        | Except.ok m => m
        | Except.error _ => 0) = n
  rw [pyStrip_eq_self hns, List.isEmpty_eq_false.mpr hne]
  simp [hbody]

theorem ctsBody_PT (body : List Char) :
    ctsBody ('P' :: 'T' :: body)
      = Except.ok (decRoundHalfEven
          (decAddInt ((ptMinutes ('P' :: 'T' :: body) : Int) * 60)
            (ptSeconds ('P' :: 'T' :: body)))) := by
  unfold ctsBody
  rw [if_pos (show ('P' :: 'T' :: body).take 2 = ['P', 'T'] from rfl)]

theorem mul_sixty_even (d : Int) : d * 60 % 2 = 0 := by
  have h : d * 60 = 2 * (d * 30) := by ring
  rw [h]
  exact Int.mul_emod_right 2 _

theorem cts_pt_full (md sd : List Char) (fd : Option (List Char)) (s : String)
    (hdata : s.data = 'P' :: 'T' :: (md ++ 'M' :: (sd ++ (fracPart fd ++ ['S']))))
    (hm1 : md ≠ []) (hm2 : md.all Char.isDigit = true)
    (hs1 : sd ≠ []) (hs2 : sd.all Char.isDigit = true)
    (hfd : ∀ l, fd = some l → l ≠ [] ∧ l.all Char.isDigit = true) :
    clock_to_seconds (some s)
      = (digitsVal md : Int) * 60 + decRoundHalfEven (secDec sd fd) := by
  have hns : ∀ c ∈ s.data, isPySpace c = false := by
    rw [hdata]
    intro c hc
    rcases List.mem_cons.mp hc with h1 | hc2
    · subst h1; decide
    rcases List.mem_cons.mp hc2 with h1 | hc3
    · subst h1; decide
    rcases List.mem_append.mp hc3 with h1 | hc4
    · exact no_space_digits md hm2 c h1
    rcases List.mem_cons.mp hc4 with h1 | hc5
    · subst h1; decide
    rcases List.mem_append.mp hc5 with h1 | hc6
    · exact no_space_digits sd hs2 c h1
    rcases List.mem_append.mp hc6 with h1 | hc7
    · exact no_space_fracPart fd hfd c h1
    · rcases List.mem_singleton.mp hc7 with h1
      subst h1; decide
  have hmins : ptMinutes ('P' :: 'T' :: (md ++ 'M' :: (sd ++ (fracPart fd ++ ['S']))))
      = digitsVal md := by
    unfold ptMinutes
    rw [searchDigitsM_found md _ hm1 hm2]
  have hsecs : ptSeconds ('P' :: 'T' :: (md ++ 'M' :: (sd ++ (fracPart fd ++ ['S']))))
      = secDec sd fd := by
    unfold ptSeconds
    rw [searchSecS_skip 'P' _ (by decide), searchSecS_skip 'T' _ (by decide),
      searchSecS_skip_digits_M md _ hm2, searchSecS_found sd fd hs1 hs2 hfd]
    rfl
  rw [clock_to_seconds_eval s _ hns (by rw [hdata]; exact List.cons_ne_nil _ _)
    (by rw [hdata]; exact ctsBody_PT _)]
  rw [hmins, hsecs]
  exact decRoundHalfEven_addInt_even _ (mul_sixty_even _) _

theorem cts_pt_minutes (md : List Char) (s : String)
    (hdata : s.data = 'P' :: 'T' :: (md ++ ['M']))
    (hm1 : md ≠ []) (hm2 : md.all Char.isDigit = true) :
    clock_to_seconds (some s) = (digitsVal md : Int) * 60 := by
  have hns : ∀ c ∈ s.data, isPySpace c = false := by
    rw [hdata]
    intro c hc
    rcases List.mem_cons.mp hc with h1 | hc2
    · subst h1; decide
    rcases List.mem_cons.mp hc2 with h1 | hc3
    · subst h1; decide
    rcases List.mem_append.mp hc3 with h1 | hc4
    · exact no_space_digits md hm2 c h1
    · rcases List.mem_singleton.mp hc4 with h1
      subst h1; decide
  have hmins : ptMinutes ('P' :: 'T' :: (md ++ ['M'])) = digitsVal md := by
    unfold ptMinutes
    rw [show (md ++ ['M'] : List Char) = md ++ 'M' :: [] from rfl,
      searchDigitsM_found md [] hm1 hm2]
  have hnoS : ('S' : Char) ∉ 'P' :: 'T' :: (md ++ ['M']) := by
    intro h
    rcases List.mem_cons.mp h with h1 | h2
    · exact absurd h1 (by decide)
    rcases List.mem_cons.mp h2 with h1 | h3
    · exact absurd h1 (by decide)
    rcases List.mem_append.mp h3 with h1 | h4
    · exact absurd (List.all_eq_true.mp hm2 _ h1) (by decide)
    · exact absurd (List.mem_singleton.mp h4) (by decide)
  have hsecs : ptSeconds ('P' :: 'T' :: (md ++ ['M'])) = ⟨0, 0⟩ := by
    unfold ptSeconds
    rw [searchSecS_none _ hnoS]
  rw [clock_to_seconds_eval s _ hns (by rw [hdata]; exact List.cons_ne_nil _ _)
    (by rw [hdata]; exact ctsBody_PT _)]
  rw [hmins, hsecs]
  have hd : decAddInt ((digitsVal md : Int) * 60) ⟨0, 0⟩
      = ⟨(digitsVal md : Int) * 60, 0⟩ := by
    unfold decAddInt
    simp
  rw [hd, decRoundHalfEven_zeroFrac]

theorem cts_pt_seconds (sd : List Char) (fd : Option (List Char)) (s : String)
    (hdata : s.data = 'P' :: 'T' :: (sd ++ (fracPart fd ++ ['S'])))
    (hs1 : sd ≠ []) (hs2 : sd.all Char.isDigit = true)
    (hfd : ∀ l, fd = some l → l ≠ [] ∧ l.all Char.isDigit = true) :
    clock_to_seconds (some s) = decRoundHalfEven (secDec sd fd) := by
  have hns : ∀ c ∈ s.data, isPySpace c = false := by
    rw [hdata]
    intro c hc
    rcases List.mem_cons.mp hc with h1 | hc2
    · subst h1; decide
    rcases List.mem_cons.mp hc2 with h1 | hc3
    · subst h1; decide
    rcases List.mem_append.mp hc3 with h1 | hc4
    · exact no_space_digits sd hs2 c h1
    rcases List.mem_append.mp hc4 with h1 | hc5
    · exact no_space_fracPart fd hfd c h1
    · rcases List.mem_singleton.mp hc5 with h1
      subst h1; decide
  have hnoM : ('M' : Char) ∉ 'P' :: 'T' :: (sd ++ (fracPart fd ++ ['S'])) := by
    intro h
    rcases List.mem_cons.mp h with h1 | h2
    · exact absurd h1 (by decide)
    rcases List.mem_cons.mp h2 with h1 | h3
    · exact absurd h1 (by decide)
    rcases List.mem_append.mp h3 with h1 | h4
    · exact absurd (List.all_eq_true.mp hs2 _ h1) (by decide)
    rcases List.mem_append.mp h4 with h1 | h5
    · cases fd with
      | none => simp [fracPart] at h1
      | some l =>
        rcases List.mem_cons.mp h1 with h6 | h7
        · exact absurd h6 (by decide)
        · exact absurd (List.all_eq_true.mp (hfd l rfl).2 _ h7) (by decide)
    · exact absurd (List.mem_singleton.mp h5) (by decide)
  have hmins : ptMinutes ('P' :: 'T' :: (sd ++ (fracPart fd ++ ['S']))) = 0 := by
    unfold ptMinutes
    rw [searchDigitsM_none _ hnoM]
  have hsecs : ptSeconds ('P' :: 'T' :: (sd ++ (fracPart fd ++ ['S']))) = secDec sd fd := by
    unfold ptSeconds
    rw [searchSecS_skip 'P' _ (by decide), searchSecS_skip 'T' _ (by decide),
      searchSecS_found sd fd hs1 hs2 hfd]
    rfl
  rw [clock_to_seconds_eval s _ hns (by rw [hdata]; exact List.cons_ne_nil _ _)
    (by rw [hdata]; exact ctsBody_PT _)]
  rw [hmins, hsecs]
  have hd : decAddInt ((0 : Nat) * 60 : Int) (secDec sd fd) = secDec sd fd := by
    unfold decAddInt
    simp
  rw [show ((0 : Nat) : Int) * 60 = (((0 : Nat) * 60 : Int)) from by simp] at *
  simp [decAddInt]

theorem cts_colon_form (mcs sd : List Char) (fd : Option (List Char)) (s : String)
    (hdata : s.data = mcs ++ ':' :: (sd ++ fracPart fd))
    (hm1 : mcs ≠ []) (hm2 : mcs.all Char.isDigit = true)
    (hs1 : sd ≠ []) (hs2 : sd.all Char.isDigit = true)
    (hfd : ∀ l, fd = some l → l ≠ [] ∧ l.all Char.isDigit = true) :
    clock_to_seconds (some s) = (digitsVal mcs : Int) * 60 + (digitsVal sd : Int) := by
  have hns : ∀ c ∈ s.data, isPySpace c = false := by
    rw [hdata]
    intro c hc
    rcases List.mem_append.mp hc with h1 | hc2
    · exact no_space_digits mcs hm2 c h1
    rcases List.mem_cons.mp hc2 with h1 | hc3
    · subst h1; decide
    rcases List.mem_append.mp hc3 with h1 | hc4
    · exact no_space_digits sd hs2 c h1
    · exact no_space_fracPart fd hfd c hc4
  have hPT : (mcs ++ ':' :: (sd ++ fracPart fd)).take 2 ≠ ['P', 'T'] := by
    cases mcs with
    | nil => exact absurd rfl hm1
    | cons c t =>
      have hc : c.isDigit = true := by
        simp only [List.all_cons, Bool.and_eq_true] at hm2
        exact hm2.1
      intro heq
      rw [List.cons_append, List.take_succ_cons] at heq
      simp only [List.cons.injEq] at heq
      exact digit_ne hc (by decide) heq.1
  have hcol : (mcs ++ ':' :: (sd ++ fracPart fd)).any (fun c => c == ':') = true := by
    rw [List.any_eq_true]
    exact ⟨':', List.mem_append_right _ (List.mem_cons_self _ _), by decide⟩
  have hnc_m : (':' : Char) ∉ mcs := fun h =>
    absurd (List.all_eq_true.mp hm2 _ h) (by decide)
  have hnc_s : (':' : Char) ∉ sd ++ fracPart fd := by
    intro h
    rcases List.mem_append.mp h with h1 | h2
    · exact absurd (List.all_eq_true.mp hs2 _ h1) (by decide)
    · cases fd with
      | none => simp [fracPart] at h2
      | some l =>
        rcases List.mem_cons.mp h2 with h3 | h4
        · exact absurd h3 (by decide)
        · exact absurd (List.all_eq_true.mp (hfd l rfl).2 _ h4) (by decide)
  have hsplit : splitOnColon (mcs ++ ':' :: (sd ++ fracPart fd))
      = [mcs, sd ++ fracPart fd] := by
    rw [splitOnColon_append mcs _ hnc_m, splitOnColon_no_colon _ hnc_s]
  have hbody : ctsBody (mcs ++ ':' :: (sd ++ fracPart fd))
      = Except.ok ((digitsVal mcs : Int) * 60 + decTrunc (secDec sd fd)) := by
    unfold ctsBody
    rw [if_neg hPT, if_pos hcol, hsplit]
    show (match pyInt mcs, pyFloat (sd ++ fracPart fd) with
         | some m, some q => Except.ok (m * 60 + decTrunc q)
         | _, _ => Except.error ())
        = Except.ok ((digitsVal mcs : Int) * 60 + decTrunc (secDec sd fd))
    rw [pyInt_digits mcs hm1 hm2, pyFloat_digits sd fd hs1 hs2 hfd]
  have hne : s.data ≠ [] := by
    rw [hdata]
    simp [List.append_eq_nil]
  rw [clock_to_seconds_eval s _ hns hne (by rw [hdata]; exact hbody)]
  rw [decTrunc_secDec sd fd hfd]

/-- Claim C4: for every well-formed clock string the parser returns the
specified value — a colon-delimited `MM:SS` string (seconds possibly
fractional) parses to minutes×60 plus the seconds component truncated to
an integer, and a duration-style `PT<minutes>M<seconds>S` string (either
component optional) parses to minutes×60 plus the seconds component
rounded to the nearest integer (ties to even, as CPython's `round`);
concretely `parse("02:34") = 154`, `parse("PT2M34.00S") = 154`,
`parse("PT0M5S") = 5`, `parse("PT3M") = 180`. -/
theorem clock_to_seconds_wellformed :
    (∀ (mcs sd : List Char) (fd : Option (List Char)) (s : String),
        s.data = mcs ++ ':' :: (sd ++ fracPart fd) →
        mcs ≠ [] → mcs.all Char.isDigit = true →
        sd ≠ [] → sd.all Char.isDigit = true →
        (∀ l, fd = some l → l ≠ [] ∧ l.all Char.isDigit = true) →
        clock_to_seconds (some s) = (digitsVal mcs : Int) * 60 + (digitsVal sd : Int)) ∧
    (∀ (md sd : List Char) (fd : Option (List Char)) (s : String),
        s.data = 'P' :: 'T' :: (md ++ 'M' :: (sd ++ (fracPart fd ++ ['S']))) →
        md ≠ [] → md.all Char.isDigit = true →
        sd ≠ [] → sd.all Char.isDigit = true →
        (∀ l, fd = some l → l ≠ [] ∧ l.all Char.isDigit = true) →
        clock_to_seconds (some s)
          = (digitsVal md : Int) * 60 + decRoundHalfEven (secDec sd fd)) ∧
    (∀ (md : List Char) (s : String),
        s.data = 'P' :: 'T' :: (md ++ ['M']) →
        md ≠ [] → md.all Char.isDigit = true →
        clock_to_seconds (some s) = (digitsVal md : Int) * 60) ∧
    (∀ (sd : List Char) (fd : Option (List Char)) (s : String),
        s.data = 'P' :: 'T' :: (sd ++ (fracPart fd ++ ['S'])) →
        sd ≠ [] → sd.all Char.isDigit = true →
        (∀ l, fd = some l → l ≠ [] ∧ l.all Char.isDigit = true) →
        clock_to_seconds (some s) = decRoundHalfEven (secDec sd fd)) ∧
    clock_to_seconds (some ("02:34")) = 154 ∧
    clock_to_seconds (some ("PT2M34.00S")) = 154 ∧
    clock_to_seconds (some ("PT0M5S")) = 5 ∧
    clock_to_seconds (some ("PT3M")) = 180 :=
  ⟨cts_colon_form, cts_pt_full, cts_pt_minutes, cts_pt_seconds,
   by decide, by decide, by decide, by decide⟩

/-- Witness for C4 on the concrete well-formed string `"10:30"`. -/
theorem clock_to_seconds_wellformed_witness :
    clock_to_seconds (some ("10:30"))
      = (digitsVal ['1', '0'] : Int) * 60 + (digitsVal ['3', '0'] : Int) :=
  clock_to_seconds_wellformed.1 ['1', '0'] ['3', '0'] none ("10:30")
    rfl (by decide) (by decide) (by decide) (by decide) (fun l hl => by cases hl)
